import Mathlib

/-!
Verification of `merge_maniobras_to_csv.py`.

The script walks an input directory whose direct subdirectories are named
`Driver*`, reads one sheet from every `*.xlsx` workbook found inside them,
prepends a `driver` column (the parent directory name) and a `maneuver`
column (parsed from the filename), drops a fixed denylist of columns,
concatenates everything into a single table and writes it as a CSV with a
UTF-8 byte-order mark.

The development below is a shallow embedding of that script.  Filesystem
contents, the availability of the pandas library and the results of
`pandas.read_excel` are modelled as explicit inputs (a `World`); the pandas
DataFrame operations actually used by the script (`insert`, `drop`,
`concat`, `to_csv`) are embedded as functions on a `Frame` type following
the documented pandas semantics.  Side effects of a run (directory
creation, CSV write, success report) are collected into an effect trace.
-/

namespace MergeManiobras

/-- A cell of a table: `none` models a missing value (NaN). -/
abbrev Cell := Option String

/-- Embedding of a pandas DataFrame: a list of column names and a list of
rows, each row a list of cells aligned positionally with the columns. -/
structure Frame where
  cols : List String
  rows : List (List Cell)
deriving DecidableEq, Repr

/-! ### Python string and path helpers used by the script

Python string primitives are embedded as structurally recursive functions
over the character list of a `String`, following the documented CPython
semantics (comparison is code point by code point, `str.split` with an
explicit separator keeps empty segments). -/

/-- Index of the last occurrence of `.` in a list of characters, as in the
Python expression `name.rfind(chr(46))`; `none` when absent. -/
def rfindDot (cs : List Char) : Option Nat :=
  match cs.reverse.indexOf? '.' with
  | none => none
  | some j => some (cs.length - 1 - j)

/-- Embedding of `pathlib.PurePath.stem` applied to a file name: the name
with its suffix removed, where the suffix starts at the last dot only when
that dot is neither the first nor the last character of the name. -/
def pyStem (name : String) : String :=
  let cs := name.toList
  match rfindDot cs with
  | some i => if 0 < i ∧ i + 1 < cs.length then String.mk (cs.take i) else name
  | none => name

/-- Embedding of Python `str.split` with a one-character separator: every
maximal (possibly empty) run of characters between separators becomes a
segment, so the result always has one more segment than there are
separator occurrences. -/
def pySplit (sep : Char) : List Char → List (List Char)
  | [] => [[]]
  | c :: rest =>
    match pySplit sep rest with
    | [] => [[]]
    | h :: t => if c == sep then [] :: h :: t else (c :: h) :: t

/-- Embedding of `parse_maneuver_from_filename` (source lines 17-22): split
the stem of the file name on underscores and return the segment at index 1
when at least two segments exist, the empty string otherwise. -/
def parse_maneuver_from_filename (filename : String) : String :=
  let parts := (pySplit '_' (pyStem filename).toList).map String.mk
  if 2 ≤ parts.length then parts.getD 1 "" else ""

/-! ### Filesystem model and discovery -/

/-- One directory entry: its name and whether it is itself a directory. -/
structure Entry where
  name : String
  isDir : Bool
deriving DecidableEq, Repr

/-- The part of the filesystem the script looks at: the direct children of
the input root, and for every child name the children of that child. -/
structure FS where
  rootEntries : List Entry
  subEntries : String → List Entry

/-- Whether `pat` is an initial run of `cs`, character by character. -/
def leadingChars : List Char → List Char → Bool
  | [], _ => true
  | _ :: _, [] => false
  | p :: ps, c :: cs => p == c && leadingChars ps cs

/-- Embedding of Python `str.startswith`. -/
def strStartsWith (s pat : String) : Bool :=
  leadingChars pat.toList s.toList

/-- Embedding of Python `str.endswith`. -/
def strEndsWith (s pat : String) : Bool :=
  leadingChars pat.toList.reverse s.toList.reverse

/-- Embedding of Python string comparison, lexicographic code point by
code point. -/
def charListLe : List Char → List Char → Bool
  | [], _ => true
  | _ :: _, [] => false
  | a :: as, b :: bs =>
    if a.toNat < b.toNat then true
    else if b.toNat < a.toNat then false
    else charListLe as bs

/-- Python `a <= b` on strings. -/
def strLe (a b : String) : Bool := charListLe a.toList b.toList

/-- Inserts `a` into `l` before the first element not below it. -/
def orderedInsertB (le : α → α → Bool) (a : α) : List α → List α
  | [] => [a]
  | b :: l => if le a b then a :: b :: l else b :: orderedInsertB le a l

/-- Stable insertion sort; extensionally equal to Python `sorted` for a
total transitive boolean comparison, since the stably sorted permutation
of a list is unique. -/
def insertionSortB (le : α → α → Bool) : List α → List α
  | [] => []
  | a :: l => orderedInsertB le a (insertionSortB le l)

/-- Embedding of the glob pattern `Driver*`: fnmatch with a single trailing
star matches exactly the names having the given leading part. -/
def globDriver (e : Entry) : Bool := strStartsWith e.name "Driver"

/-- Embedding of the glob pattern `*.xlsx`: fnmatch with a single leading
star matches exactly the names having the given trailing part. -/
def globXlsx (e : Entry) : Bool := strEndsWith e.name ".xlsx"

/-- Embedding of `sorted` over paths sharing one parent directory: Python
compares such paths by their final component, code point by code point. -/
def sortByName (l : List Entry) : List Entry :=
  insertionSortB (fun a b => strLe a.name b.name) l

/-- Embedding of `iter_excel_files` (source lines 8-14): enumerate the
root entries matching `Driver*` in sorted order, skip those that are not
directories, and inside each enumerate the entries matching `*.xlsx` in
sorted order.  Each discovered path is the pair (directory name, entry
name). -/
def iter_excel_files (fs : FS) : List (String × String) :=
  ((sortByName (fs.rootEntries.filter globDriver)).filter (fun e => e.isDir)).flatMap
    (fun d =>
      (sortByName ((fs.subEntries d.name).filter globXlsx)).map
        (fun e => (d.name, e.name)))

/-! ### Embedded pandas operations -/

/-- The fixed denylist of columns (source lines 76-84). -/
def columns_to_remove : List String :=
  ["Accidents", "Collisions", "Peds Hit", "Speeding Tics",
   "Red Lgt Tics", "Speed Exceed", "Stop Sign Ticks"]

/-- Embedding of `DataFrame.insert(loc, column, value)` with a scalar
value: pandas raises a ValueError when the column already exists
(`allow_duplicates` defaults to False); otherwise the name is inserted at
position `loc` among the columns and the scalar is broadcast to every
row. -/
def Frame.insertCol (df : Frame) (loc : Nat) (name : String) (v : Cell) :
    Except String Frame :=
  if df.cols.contains name then
    .error ("cannot insert " ++ name ++ ", already exists")
  else
    .ok ⟨List.insertIdx loc name df.cols,
         df.rows.map (fun r => List.insertIdx loc v r)⟩

/-- Embedding of `DataFrame.drop(columns=names, errors=ignore)`: every
column whose name is in `names` is removed together with its cells, and a
name in `names` that is absent is simply ignored. -/
def Frame.dropCols (df : Frame) (names : List String) : Frame :=
  { cols := df.cols.filter (fun c => !(names.contains c)),
    rows := df.rows.map (fun r =>
      ((df.cols.zip r).filter (fun p => !(names.contains p.1))).map Prod.snd) }

/-- The value a row of `df` holds in the column named `c`: the cell paired
with the first occurrence of `c` among the columns, `none` when the column
is absent. -/
def Frame.cellAt (df : Frame) (r : List Cell) (c : String) : Cell :=
  match (df.cols.zip r).find? (fun p => p.1 == c) with
  | some p => p.2
  | none => none

/-- Column list of `pandas.concat(frames, sort=False)`: the union of the
input column lists, keeping the order of first appearance. -/
def unionCols (frames : List Frame) : List String :=
  frames.foldl (fun acc f => acc ++ f.cols.filter (fun c => !(acc.contains c))) []

/-- Reindexes a row of `f` against a wider column list: columns absent
from `f` receive a missing value. -/
def reindexRow (f : Frame) (allCols : List String) (r : List Cell) : List Cell :=
  allCols.map (fun c => f.cellAt r c)

/-- Embedding of `pandas.concat(frames, ignore_index=True, sort=False)`
(source line 126): the columns are the union in order of first appearance,
and the rows are all input rows in input order, each reindexed against the
combined columns. -/
def pd_concat (frames : List Frame) : Frame :=
  let allCols := unionCols frames
  { cols := allCols,
    rows := (frames.map (fun f => f.rows.map (reindexRow f allCols))).flatten }

/-! ### Per-file processing -/

/-- What `pandas.read_excel` can hand back to the script: a single frame,
`None` (the defensive branch at source line 109), or a dict of frames
keyed by sheet name (source lines 102-106), modelled as the list of its
values in order. -/
inductive ReadResult where
  | table (df : Option Frame)
  | sheets (dfs : List Frame)
deriving DecidableEq, Repr

/-- Embedding of the defensive branches at source lines 102-110: an empty
dict or a `None` result means the file is skipped; a nonempty dict
contributes its first value. -/
def extractDf : ReadResult → Option Frame
  | .table none => none
  | .table (some df) => some df
  | .sheets [] => none
  | .sheets (df :: _) => some df

/-- Embedding of the per-file body of the main loop (source lines 102-119):
extract the usable frame if any, insert the `driver` and `maneuver`
columns at positions 0 and 1, and drop the denylisted columns.  A `none`
result means the file was skipped; an error aborts the whole run. -/
def processFile (driver maneuver : String) (rr : ReadResult) :
    Except String (Option Frame) :=
  match extractDf rr with
  | none => .ok none
  | some df => do
    let df1 ← df.insertCol 0 "driver" (some driver)
    let df2 ← df1.insertCol 1 "maneuver" (some maneuver)
    .ok (some (df2.dropCols columns_to_remove))

/-! ### The whole run -/

/-- The command line arguments of the script with their defaults. -/
structure Args where
  input : String
  output : String
  sheet : Option String
  skiprows : Nat
deriving DecidableEq, Repr

/-- The default argument values (source lines 32-58). -/
def defaultArgs : Args :=
  { input := "ManiobrasSimulador", output := "maniobras_combined.csv",
    sheet := none, skiprows := 0 }

/-- Everything outside the script that a run depends on: whether the input
path exists and is a directory, whether pandas imports, the directory
contents, what `read_excel` returns for each discovered path (an error
models a raised exception while reading that workbook), and how the
operating system resolves a path to an absolute one. -/
structure World where
  inputExists : Bool
  inputIsDir : Bool
  pandasAvailable : Bool
  fs : FS
  readExcel : String → String → Except String ReadResult
  resolvePath : String → String

/-- Embedding of the main loop over discovered files (source lines
88-119): read each workbook, process it, and collect the processed frames
in discovery order; the first raised error aborts. -/
def collectFrames (w : World) : List (String × String) → Except String (List Frame)
  | [] => .ok []
  | (d, fn) :: rest => do
    let rr ← w.readExcel d fn
    let odf ← processFile d (parse_maneuver_from_filename fn) rr
    let tail ← collectFrames w rest
    match odf with
    | none => .ok tail
    | some f => .ok (f :: tail)

/-- Observable side effects of a run, in order of occurrence. -/
inductive Effect where
  | ensureParentDir (outputPath : String)
  | writeCsv (path : String) (df : Frame) (encoding : String)
      (index : Bool) (header : Bool)
  | reportSuccess (nrows : Nat) (resolvedPath : String)
deriving DecidableEq, Repr

/-- Outcome of a run: the process exit code, the fatal message if any, and
the effect trace. -/
structure RunResult where
  exit : Nat
  fatalMsg : Option String
  effects : List Effect
deriving DecidableEq, Repr

/-- Whether an effect writes the output file. -/
def Effect.isWrite : Effect → Bool
  | .writeCsv _ _ _ _ _ => true
  | _ => false

/-- Embedding of `main` (source lines 25-133).  `raise SystemExit(msg)`
with a string argument makes the interpreter print the message to stderr
and exit with status 1; returning 0 exits with status 0.  The CSV write
uses `index=False` and `encoding=utf-8-sig`; `header` keeps its pandas
default of True. -/
def run (w : World) (args : Args) : RunResult :=
  if !(w.inputExists && w.inputIsDir) then
    { exit := 1,
      fatalMsg := some ("Input folder not found or not a directory: " ++ args.input),
      effects := [] }
  else if !w.pandasAvailable then
    { exit := 1, fatalMsg := some "Missing dependency: pandas", effects := [] }
  else
    match collectFrames w (iter_excel_files w.fs) with
    | .error e => { exit := 1, fatalMsg := some e, effects := [] }
    | .ok frames =>
      if frames.isEmpty then
        { exit := 1,
          fatalMsg := some ("No .xlsx files found under " ++ args.input),
          effects := [] }
      else
        let combined := pd_concat frames
        { exit := 0, fatalMsg := none,
          effects :=
            [.ensureParentDir args.output,
             .writeCsv args.output combined "utf-8-sig" false true,
             .reportSuccess combined.rows.length (w.resolvePath args.output)] }

/-- Which encodings emit a byte-order mark before the text, following the
Python codecs module: utf-8-sig writes the UTF-8 BOM, utf-16 and utf-32
write a BOM chosen by endianness. -/
def encodingWritesBOM (enc : String) : Bool :=
  enc == "utf-8-sig" || enc == "utf-16" || enc == "utf-32"

/-! ### Concrete inputs used to instantiate the theorems -/

/-- A small filesystem: two driver directories holding workbooks, a
non-matching directory, a non-directory entry matching the pattern, and a
file that is not a workbook. -/
def sampleFS : FS :=
  { rootEntries := [⟨"DriverB", true⟩, ⟨"DriverA", true⟩, ⟨"notes", true⟩, ⟨"DriverC", false⟩],
    subEntries := fun d =>
      if d = "DriverA" then [⟨"STISIMData_Roundabout.xlsx", false⟩]
      else if d = "DriverB" then
        [⟨"b_2.xlsx", false⟩, ⟨"b_1.xlsx", false⟩, ⟨"readme.txt", false⟩]
      else [] }

/-- A world in which every read succeeds: one workbook has a denylisted
column, one returns a dict of two sheets. -/
def sampleWorld : World :=
  { inputExists := true, inputIsDir := true, pandasAvailable := true,
    fs := sampleFS,
    readExcel := fun d fn =>
      if d = "DriverA" then
        .ok (.table (some ⟨["Speed", "Accidents"],
          [[some "50", some "0"], [some "60", some "1"]]⟩))
      else if fn = "b_1.xlsx" then
        .ok (.sheets [⟨["Lane"], [[some "2"]]⟩, ⟨["X"], [[some "9"]]⟩])
      else .ok (.table (some ⟨["Speed"], [[some "70"]]⟩)),
    resolvePath := fun s => "/abs/" ++ s }

/-- The frames the main loop collects in `sampleWorld`: the denylisted
Accidents column is gone and the two label columns lead. -/
def sampleFrames : List Frame :=
  [⟨["driver", "maneuver", "Speed"],
    [[some "DriverA", some "Roundabout", some "50"],
     [some "DriverA", some "Roundabout", some "60"]]⟩,
   ⟨["driver", "maneuver", "Lane"], [[some "DriverB", some "1", some "2"]]⟩,
   ⟨["driver", "maneuver", "Speed"], [[some "DriverB", some "2", some "70"]]⟩]

/-- A world whose single discovered workbook reads as a table with one
column and zero rows. -/
def emptySheetWorld : World :=
  { inputExists := true, inputIsDir := true, pandasAvailable := true,
    fs := { rootEntries := [⟨"Driver1", true⟩],
            subEntries := fun d =>
              if d = "Driver1" then [⟨"a.xlsx", false⟩] else [] },
    readExcel := fun _ _ => .ok (.table (some ⟨["Speed"], []⟩)),
    resolvePath := fun s => s }

/-- A world whose input root contains a driver directory with no
workbooks at all. -/
def noFilesWorld : World :=
  { inputExists := true, inputIsDir := true, pandasAvailable := true,
    fs := { rootEntries := [⟨"Driver1", true⟩], subEntries := fun _ => [] },
    readExcel := fun _ _ => .ok (.table none),
    resolvePath := fun s => s }

/-- A filesystem in which the entry matching `*.xlsx` inside the driver
directory is itself a directory, not a file. -/
def dirAsXlsxFS : FS :=
  { rootEntries := [⟨"Driver1", true⟩],
    subEntries := fun d =>
      if d = "Driver1" then [⟨"sub.xlsx", true⟩] else [] }

/-- A world whose single discovered workbook reads as an empty dict of
sheets, and a second workbook that reads normally. -/
def emptyDictWorld : World :=
  { inputExists := true, inputIsDir := true, pandasAvailable := true,
    fs := { rootEntries := [⟨"Driver1", true⟩],
            subEntries := fun d =>
              if d = "Driver1" then [⟨"a.xlsx", false⟩, ⟨"b.xlsx", false⟩]
              else [] },
    readExcel := fun _ fn =>
      if fn = "a.xlsx" then .ok (.sheets [])
      else .ok (.table (some ⟨["Speed"], [[some "70"]]⟩)),
    resolvePath := fun s => s }

/-- A world with a missing input root. -/
def missingInputWorld : World :=
  { inputExists := false, inputIsDir := false, pandasAvailable := true,
    fs := { rootEntries := [], subEntries := fun _ => [] },
    readExcel := fun _ _ => .ok (.table none),
    resolvePath := fun s => s }

/-- A world whose single discovered workbook already holds a column named
`driver`. -/
def clashWorld : World :=
  { inputExists := true, inputIsDir := true, pandasAvailable := true,
    fs := { rootEntries := [⟨"Driver1", true⟩],
            subEntries := fun d =>
              if d = "Driver1" then [⟨"a.xlsx", false⟩] else [] },
    readExcel := fun _ _ =>
      .ok (.table (some ⟨["driver", "Speed"], [[some "x", some "50"]]⟩)),
    resolvePath := fun s => s }

/-! ## Lemmas about the sorting primitives -/

theorem orderedInsertB_perm (le : α → α → Bool) (a : α) (l : List α) :
    (orderedInsertB le a l).Perm (a :: l) := by
  induction l with
  | nil => exact List.Perm.refl _
  | cons b l ih =>
    cases hab : le a b with
    | true => simp [orderedInsertB, hab]
    | false =>
      simp only [orderedInsertB, hab, Bool.false_eq_true, if_false]
      exact (List.Perm.cons b ih).trans (List.Perm.swap a b l)

theorem insertionSortB_perm (le : α → α → Bool) (l : List α) :
    (insertionSortB le l).Perm l := by
  induction l with
  | nil => exact List.Perm.refl _
  | cons a l ih =>
    exact (orderedInsertB_perm le a (insertionSortB le l)).trans (List.Perm.cons a ih)

theorem mem_insertionSortB {le : α → α → Bool} {l : List α} {x : α} :
    x ∈ insertionSortB le l ↔ x ∈ l :=
  (insertionSortB_perm le l).mem_iff

theorem pairwise_orderedInsertB {le : α → α → Bool}
    (htr : ∀ a b c, le a b = true → le b c = true → le a c = true)
    (hto : ∀ a b, le a b = true ∨ le b a = true)
    (a : α) {l : List α} (h : l.Pairwise (fun x y => le x y = true)) :
    (orderedInsertB le a l).Pairwise (fun x y => le x y = true) := by
  induction l with
  | nil => simp [orderedInsertB]
  | cons b l ih =>
    rcases List.pairwise_cons.mp h with ⟨hb, hl⟩
    cases hab : le a b with
    | true =>
      simp only [orderedInsertB, hab, if_true]
      refine List.pairwise_cons.mpr ⟨?_, h⟩
      intro y hy
      rcases List.mem_cons.mp hy with rfl | hy
      · exact hab
      · exact htr a b y hab (hb y hy)
    | false =>
      have hba : le b a = true := by
        rcases hto a b with h' | h'
        · rw [hab] at h'; cases h'
        · exact h'
      simp only [orderedInsertB, hab, Bool.false_eq_true, if_false]
      refine List.pairwise_cons.mpr ⟨?_, ih hl⟩
      intro y hy
      have : y = a ∨ y ∈ l :=
        List.mem_cons.mp ((orderedInsertB_perm le a l).mem_iff.mp hy)
      rcases this with rfl | hy
      · exact hba
      · exact hb y hy

theorem pairwise_insertionSortB {le : α → α → Bool}
    (htr : ∀ a b c, le a b = true → le b c = true → le a c = true)
    (hto : ∀ a b, le a b = true ∨ le b a = true) (l : List α) :
    (insertionSortB le l).Pairwise (fun x y => le x y = true) := by
  induction l with
  | nil => simp [insertionSortB]
  | cons a l ih => exact pairwise_orderedInsertB htr hto a ih

theorem charListLe_refl (x : List Char) : charListLe x x = true := by
  induction x with
  | nil => rfl
  | cons a as ih => simp [charListLe, ih]

theorem charListLe_total (x y : List Char) :
    charListLe x y = true ∨ charListLe y x = true := by
  induction x generalizing y with
  | nil => left; rfl
  | cons a as ih =>
    cases y with
    | nil => right; rfl
    | cons b bs =>
      simp only [charListLe]
      rcases Nat.lt_trichotomy a.toNat b.toNat with h | h | h
      · left; simp [h]
      · have h1 : ¬ a.toNat < b.toNat := by omega
        have h2 : ¬ b.toNat < a.toNat := by omega
        simpa [h1, h2] using ih bs
      · right; simp [h]

theorem charListLe_trans {x y z : List Char}
    (h1 : charListLe x y = true) (h2 : charListLe y z = true) :
    charListLe x z = true := by
  induction x generalizing y z with
  | nil => rfl
  | cons a as ih =>
    cases y with
    | nil => simp [charListLe] at h1
    | cons b bs =>
      cases z with
      | nil => simp [charListLe] at h2
      | cons c cs =>
        simp only [charListLe] at h1 h2 ⊢
        rcases Nat.lt_trichotomy a.toNat b.toNat with hab | hab | hab
        · rcases Nat.lt_trichotomy b.toNat c.toNat with hbc | hbc | hbc
          · simp [show a.toNat < c.toNat by omega]
          · simp [show a.toNat < c.toNat by omega]
          · simp [show ¬ b.toNat < c.toNat by omega, hbc] at h2
        · rcases Nat.lt_trichotomy b.toNat c.toNat with hbc | hbc | hbc
          · simp [show a.toNat < c.toNat by omega]
          · simp only [show ¬ a.toNat < b.toNat by omega,
              show ¬ b.toNat < a.toNat by omega, if_false, ite_false,
              if_neg, not_false_iff] at h1
            simp only [show ¬ b.toNat < c.toNat by omega,
              show ¬ c.toNat < b.toNat by omega, if_neg, not_false_iff] at h2
            simp only [show ¬ a.toNat < c.toNat by omega,
              show ¬ c.toNat < a.toNat by omega, if_neg, not_false_iff]
            exact ih h1 h2
          · simp [show ¬ b.toNat < c.toNat by omega, hbc] at h2
        · simp [show ¬ a.toNat < b.toNat by omega, hab] at h1

theorem strLe_total (a b : String) : strLe a b = true ∨ strLe b a = true :=
  charListLe_total a.toList b.toList

theorem strLe_trans {a b c : String} (h1 : strLe a b = true)
    (h2 : strLe b c = true) : strLe a c = true :=
  charListLe_trans h1 h2

/-! ## Lemmas about the embedded pandas operations -/

theorem mem_foldl_unionCols (frames : List Frame) (acc : List String) (c : String) :
    c ∈ frames.foldl
        (fun acc f => acc ++ f.cols.filter (fun x => !(acc.contains x))) acc ↔
      c ∈ acc ∨ ∃ f ∈ frames, c ∈ f.cols := by
  induction frames generalizing acc with
  | nil => simp
  | cons f fs ih =>
    simp only [List.foldl_cons]
    rw [ih]
    have hstep : c ∈ acc ++ f.cols.filter (fun x => !(acc.contains x)) ↔
        c ∈ acc ∨ c ∈ f.cols := by
      by_cases hc : c ∈ acc <;>
        simp [List.mem_filter, List.elem_iff, List.contains, hc]
    rw [hstep]
    constructor
    · rintro (⟨h | h⟩ | ⟨g, hg, hcg⟩)
      · exact Or.inl h
      · exact Or.inr ⟨f, List.mem_cons_self f fs, h⟩
      · exact Or.inr ⟨g, List.mem_cons_of_mem f hg, hcg⟩
    · rintro (h | ⟨g, hg, hcg⟩)
      · exact Or.inl (Or.inl h)
      · rcases List.mem_cons.mp hg with rfl | hg
        · exact Or.inl (Or.inr hcg)
        · exact Or.inr ⟨g, hg, hcg⟩

theorem mem_unionCols {frames : List Frame} {c : String} :
    c ∈ unionCols frames ↔ ∃ f ∈ frames, c ∈ f.cols := by
  unfold unionCols
  rw [mem_foldl_unionCols]
  simp

theorem find_zip_eq_none {cols : List String} {vals : List Cell} {c : String}
    (h : c ∉ cols) :
    (cols.zip vals).find? (fun p => p.1 == c) = none := by
  rw [List.find?_eq_none]
  rintro ⟨a, b⟩ hp hbeq
  exact h (beq_iff_eq.mp hbeq ▸ (List.of_mem_zip hp).1)

theorem cellAt_eq_none {df : Frame} {r : List Cell} {c : String}
    (h : c ∉ df.cols) : df.cellAt r c = none := by
  unfold Frame.cellAt
  rw [find_zip_eq_none h]

theorem find_zip_map {l : List String} (g : String → Cell) {c : String}
    (h : c ∈ l) :
    (l.zip (l.map g)).find? (fun p => p.1 == c) = some (c, g c) := by
  induction l with
  | nil => cases h
  | cons a l ih =>
    simp only [List.map_cons, List.zip_cons_cons]
    by_cases hac : a = c
    · subst hac
      rw [List.find?_cons_of_pos _ (by simp)]
    · rw [List.find?_cons_of_neg _ (by simpa using hac)]
      exact ih (List.mem_cons.mp h |>.resolve_left (fun e => hac e.symm))

theorem cellAt_reindexRow (cols : List String) (rws : List (List Cell))
    (f : Frame) (r : List Cell) (c : String) :
    Frame.cellAt ⟨cols, rws⟩ (reindexRow f cols r) c
      = if c ∈ cols then f.cellAt r c else none := by
  by_cases hc : c ∈ cols
  · unfold Frame.cellAt reindexRow
    rw [show (⟨cols, rws⟩ : Frame).cols = cols from rfl, find_zip_map _ hc]
    simp [hc]
    rfl
  · rw [if_neg hc]
    exact cellAt_eq_none hc

theorem pd_concat_cols (frames : List Frame) :
    (pd_concat frames).cols = unionCols frames := rfl

theorem pd_concat_length (frames : List Frame) :
    (pd_concat frames).rows.length = (frames.map (fun f => f.rows.length)).sum := by
  simp [pd_concat, List.length_flatten, List.map_map, Function.comp_def]

theorem mem_pd_concat_rows {frames : List Frame} {r : List Cell} :
    r ∈ (pd_concat frames).rows ↔
      ∃ f ∈ frames, ∃ r0 ∈ f.rows, r = reindexRow f (unionCols frames) r0 := by
  simp only [pd_concat, List.mem_flatten, List.mem_map]
  constructor
  · rintro ⟨_, ⟨f, hf, rfl⟩, hr⟩
    rcases List.mem_map.mp hr with ⟨r0, hr0, rfl⟩
    exact ⟨f, hf, r0, hr0, rfl⟩
  · rintro ⟨f, hf, r0, hr0, rfl⟩
    exact ⟨f.rows.map (reindexRow f (unionCols frames)), ⟨f, hf, rfl⟩,
      List.mem_map_of_mem _ hr0⟩

theorem dropCols_cols (df : Frame) (names : List String) :
    (df.dropCols names).cols = df.cols.filter (fun c => !(names.contains c)) := rfl

theorem mem_dropCols_not_removed {df : Frame} {names : List String} {c : String}
    (h : c ∈ (df.dropCols names).cols) : c ∉ names := by
  rw [dropCols_cols] at h
  rcases List.mem_filter.mp h with ⟨-, h2⟩
  simpa [List.contains, List.elem_iff] using h2

/-! ## Lemmas about per-file processing -/

theorem contains_eq_false_of_not_mem {l : List String} {a : String} (h : a ∉ l) :
    l.contains a = false := by
  rw [show l.contains a = List.elem a l from rfl]
  exact Bool.eq_false_iff.mpr (fun he => h (List.elem_iff.mp he))

theorem contains_eq_true_of_mem {l : List String} {a : String} (h : a ∈ l) :
    l.contains a = true := by
  rw [show l.contains a = List.elem a l from rfl]
  exact List.elem_iff.mpr h

theorem processFile_of_extract_none {d m : String} {rr : ReadResult}
    (h : extractDf rr = none) : processFile d m rr = .ok none := by
  unfold processFile
  rw [h]

theorem processFile_of_fresh {d m : String} {df : Frame} {rr : ReadResult}
    (hrr : extractDf rr = some df)
    (h1 : "driver" ∉ df.cols) (h2 : "maneuver" ∉ df.cols) :
    processFile d m rr = .ok (some (Frame.dropCols
      ⟨"driver" :: "maneuver" :: df.cols,
       df.rows.map (fun r => some d :: some m :: r)⟩ columns_to_remove)) := by
  have h2' : "maneuver" ∉ "driver" :: df.cols := by
    intro hm
    rcases List.mem_cons.mp hm with he | hm
    · exact absurd he (by decide)
    · exact h2 hm
  unfold processFile
  rw [hrr]
  simp only [Frame.insertCol, contains_eq_false_of_not_mem h1,
    Bool.false_eq_true, if_false, List.insertIdx_zero, bind, Except.bind,
    contains_eq_false_of_not_mem h2', List.insertIdx_succ_cons,
    List.map_map]
  rfl

theorem processFile_error_of_clash {d m : String} {df : Frame} {rr : ReadResult}
    (hrr : extractDf rr = some df)
    (h : "driver" ∈ df.cols ∨ "maneuver" ∈ df.cols) :
    ∃ e, processFile d m rr = .error e := by
  unfold processFile
  rw [hrr]
  by_cases h1 : "driver" ∈ df.cols
  · refine ⟨"cannot insert driver, already exists", ?_⟩
    simp [Frame.insertCol, h1, bind, Except.bind]
  · have h2 : "maneuver" ∈ df.cols := h.resolve_left h1
    have h2' : "maneuver" ∈ "driver" :: df.cols := List.mem_cons_of_mem _ h2
    refine ⟨"cannot insert maneuver, already exists", ?_⟩
    simp [Frame.insertCol, h1, h2', bind, Except.bind, List.insertIdx_zero]

theorem processFile_ok_some_inv {d m : String} {rr : ReadResult} {f : Frame}
    (h : processFile d m rr = .ok (some f)) :
    ∃ df, extractDf rr = some df ∧ "driver" ∉ df.cols ∧ "maneuver" ∉ df.cols ∧
      f = Frame.dropCols
        ⟨"driver" :: "maneuver" :: df.cols,
         df.rows.map (fun r => some d :: some m :: r)⟩ columns_to_remove := by
  cases hrr : extractDf rr with
  | none => rw [processFile_of_extract_none hrr] at h; cases h
  | some df =>
    by_cases h1 : "driver" ∈ df.cols
    · rcases processFile_error_of_clash hrr (Or.inl h1) with ⟨e, he⟩
      rw [he] at h; cases h
    · by_cases h2 : "maneuver" ∈ df.cols
      · rcases processFile_error_of_clash hrr (Or.inr h2) with ⟨e, he⟩
        rw [he] at h; cases h
      · rw [processFile_of_fresh hrr h1 h2] at h
        have hf : Frame.dropCols
            ⟨"driver" :: "maneuver" :: df.cols,
             df.rows.map (fun r => some d :: some m :: r)⟩ columns_to_remove = f := by
          simpa using h
        exact ⟨df, rfl, h1, h2, hf.symm⟩

theorem processFile_ok_none_inv {d m : String} {rr : ReadResult}
    (h : processFile d m rr = .ok none) : extractDf rr = none := by
  cases hrr : extractDf rr with
  | none => rfl
  | some df =>
    by_cases h1 : "driver" ∈ df.cols
    · rcases processFile_error_of_clash hrr (Or.inl h1) with ⟨e, he⟩
      rw [he] at h; cases h
    · by_cases h2 : "maneuver" ∈ df.cols
      · rcases processFile_error_of_clash hrr (Or.inr h2) with ⟨e, he⟩
        rw [he] at h; cases h
      · rw [processFile_of_fresh hrr h1 h2] at h
        simp at h

theorem processFile_no_denylist {d m : String} {rr : ReadResult} {f : Frame}
    (h : processFile d m rr = .ok (some f)) :
    ∀ c ∈ f.cols, c ∉ columns_to_remove := by
  rcases processFile_ok_some_inv h with ⟨df, -, -, -, rfl⟩
  exact fun c hc => mem_dropCols_not_removed hc

theorem filterMapSnd_cons_pos {p : String → Bool} {a : String} (hpa : p a = true)
    (v : Cell) (rest : List (String × Cell)) :
    (((a, v) :: rest).filter (fun q => p q.1)).map Prod.snd
      = v :: (rest.filter (fun q => p q.1)).map Prod.snd := by
  simp [List.filter_cons, hpa]

theorem processFile_driver_column {d m : String} {rr : ReadResult} {f : Frame}
    (h : processFile d m rr = .ok (some f)) :
    (∃ t, f.cols = "driver" :: t) ∧
      (∀ r ∈ f.rows, ∃ rest, r = some d :: rest) := by
  rcases processFile_ok_some_inv h with ⟨df, -, -, -, rfl⟩
  constructor
  · refine ⟨("maneuver" :: df.cols).filter
      (fun c => !(columns_to_remove.contains c)), ?_⟩
    rw [dropCols_cols]
    exact List.filter_cons_of_pos (by decide)
  · intro r hr
    rcases List.mem_map.mp hr with ⟨r1, hr1, rfl⟩
    rcases List.mem_map.mp hr1 with ⟨r0, hr0, rfl⟩
    refine ⟨((("maneuver" :: df.cols).zip (some m :: r0)).filter
      (fun p => !(columns_to_remove.contains p.1))).map Prod.snd, ?_⟩
    simp only [List.zip_cons_cons]
    exact @filterMapSnd_cons_pos (fun c => !(columns_to_remove.contains c))
      "driver" (by decide) (some d) _

/-! ## Lemmas about the main loop -/

theorem collectFrames_ok_mem {w : World} {files : List (String × String)}
    {frames : List Frame} (h : collectFrames w files = .ok frames) :
    ∀ f ∈ frames, ∃ p ∈ files, ∃ rr, w.readExcel p.1 p.2 = .ok rr ∧
      processFile p.1 (parse_maneuver_from_filename p.2) rr = .ok (some f) := by
  induction files generalizing frames with
  | nil =>
    intro f hf
    rw [show collectFrames w [] = .ok [] from rfl] at h
    injection h with h
    subst h
    cases hf
  | cons p rest ih =>
    obtain ⟨d, fn⟩ := p
    intro f hf
    cases hre : w.readExcel d fn with
    | error e => simp [collectFrames, hre, bind, Except.bind] at h
    | ok rr =>
      cases hpf : processFile d (parse_maneuver_from_filename fn) rr with
      | error e => simp [collectFrames, hre, hpf, bind, Except.bind] at h
      | ok odf =>
        cases hcf : collectFrames w rest with
        | error e => simp [collectFrames, hre, hpf, hcf, bind, Except.bind] at h
        | ok tail =>
          simp only [collectFrames, hre, hpf, hcf, bind, Except.bind] at h
          cases odf with
          | none =>
            injection h with h
            subst h
            rcases ih hcf f hf with ⟨q, hq, rr', h1, h2⟩
            exact ⟨q, List.mem_cons_of_mem _ hq, rr', h1, h2⟩
          | some g =>
            injection h with h
            subst h
            rcases List.mem_cons.mp hf with rfl | hf
            · exact ⟨(d, fn), List.mem_cons_self _ _, rr, hre, hpf⟩
            · rcases ih hcf f hf with ⟨q, hq, rr', h1, h2⟩
              exact ⟨q, List.mem_cons_of_mem _ hq, rr', h1, h2⟩

theorem collectFrames_error_of_bad_file {w : World} {files : List (String × String)}
    {p : String × String} (hp : p ∈ files)
    (hbad : ∀ rr, w.readExcel p.1 p.2 = .ok rr →
      ∃ e, processFile p.1 (parse_maneuver_from_filename p.2) rr = .error e) :
    ∃ e, collectFrames w files = .error e := by
  induction files with
  | nil => cases hp
  | cons q rest ih =>
    obtain ⟨d, fn⟩ := q
    cases hre : w.readExcel d fn with
    | error e => exact ⟨e, by simp [collectFrames, hre, bind, Except.bind]⟩
    | ok rr =>
      cases hpf : processFile d (parse_maneuver_from_filename fn) rr with
      | error e => exact ⟨e, by simp [collectFrames, hre, hpf, bind, Except.bind]⟩
      | ok odf =>
        rcases List.mem_cons.mp hp with rfl | hp
        · rcases hbad rr hre with ⟨e, he⟩
          rw [hpf] at he
          cases he
        · rcases ih hp with ⟨e, he⟩
          refine ⟨e, ?_⟩
          simp [collectFrames, hre, hpf, he, bind, Except.bind]

theorem collectFrames_ok_nil_iff {w : World} {files : List (String × String)} :
    collectFrames w files = .ok [] ↔
      ∀ p ∈ files, ∃ rr, w.readExcel p.1 p.2 = .ok rr ∧ extractDf rr = none := by
  induction files with
  | nil => simp [show collectFrames w [] = .ok [] from rfl]
  | cons q rest ih =>
    obtain ⟨d, fn⟩ := q
    constructor
    · intro h
      cases hre : w.readExcel d fn with
      | error e => simp [collectFrames, hre, bind, Except.bind] at h
      | ok rr =>
        cases hpf : processFile d (parse_maneuver_from_filename fn) rr with
        | error e => simp [collectFrames, hre, hpf, bind, Except.bind] at h
        | ok odf =>
          cases hcf : collectFrames w rest with
          | error e => simp [collectFrames, hre, hpf, hcf, bind, Except.bind] at h
          | ok tail =>
            simp only [collectFrames, hre, hpf, hcf, bind, Except.bind] at h
            cases odf with
            | none =>
              injection h with h
              subst h
              intro p hp
              rcases List.mem_cons.mp hp with rfl | hp
              · exact ⟨rr, hre, processFile_ok_none_inv hpf⟩
              · exact (ih.mp hcf) p hp
            | some g => injection h with h; cases h
    · intro h
      rcases h (d, fn) (List.mem_cons_self _ _) with ⟨rr, hre, hex⟩
      have hrest : collectFrames w rest = .ok [] :=
        ih.mpr (fun p hp => h p (List.mem_cons_of_mem _ hp))
      simp [collectFrames, hre, processFile_of_extract_none hex, hrest,
        bind, Except.bind]

theorem collectFrames_skip {w : World} {d fn : String}
    {rest : List (String × String)}
    (hre : w.readExcel d fn = .ok (.sheets [])) :
    collectFrames w ((d, fn) :: rest) = collectFrames w rest := by
  cases hcf : collectFrames w rest with
  | error e =>
    simp [collectFrames, hre, hcf, bind, Except.bind,
      processFile_of_extract_none (show extractDf (.sheets []) = none from rfl)]
  | ok tail =>
    simp [collectFrames, hre, hcf, bind, Except.bind,
      processFile_of_extract_none (show extractDf (.sheets []) = none from rfl)]

/-! ## Lemmas about the whole run -/

theorem run_dichotomy (w : World) (args : Args) :
    (∃ frames, w.inputExists = true ∧ w.inputIsDir = true ∧
      w.pandasAvailable = true ∧
      collectFrames w (iter_excel_files w.fs) = .ok frames ∧ frames ≠ [] ∧
      run w args = { exit := 0, fatalMsg := none,
                     effects := [.ensureParentDir args.output,
                       .writeCsv args.output (pd_concat frames) "utf-8-sig" false true,
                       .reportSuccess (pd_concat frames).rows.length
                         (w.resolvePath args.output)] })
    ∨ ((run w args).exit = 1 ∧ (run w args).effects = [] ∧
        ((run w args).fatalMsg).isSome = true) := by
  cases hex : w.inputExists with
  | false => right; simp [run, hex]
  | true =>
    cases hdir : w.inputIsDir with
    | false => right; simp [run, hex, hdir]
    | true =>
      cases hpa : w.pandasAvailable with
      | false => right; simp [run, hex, hdir, hpa]
      | true =>
        cases hcf : collectFrames w (iter_excel_files w.fs) with
        | error e => right; simp [run, hex, hdir, hpa, hcf]
        | ok frames =>
          cases frames with
          | nil => right; simp [run, hex, hdir, hpa, hcf]
          | cons f fl =>
            left
            refine ⟨f :: fl, rfl, rfl, rfl, rfl, by simp, ?_⟩
            simp [run, hex, hdir, hpa, hcf]

/-! ## Lemmas about discovery -/

theorem mem_iter_excel_files {fs : FS} {d fn : String} :
    (d, fn) ∈ iter_excel_files fs ↔
      ∃ e ∈ fs.rootEntries, e.name = d ∧ e.isDir = true ∧ globDriver e = true ∧
        ∃ e2 ∈ fs.subEntries d, e2.name = fn ∧ globXlsx e2 = true := by
  unfold iter_excel_files sortByName
  constructor
  · intro h
    rcases List.mem_flatMap.mp h with ⟨de, hde, hpair⟩
    rcases List.mem_map.mp hpair with ⟨e2, he2, heq⟩
    have hd : de.name = d := congrArg Prod.fst heq
    have hf : e2.name = fn := congrArg Prod.snd heq
    rcases List.mem_filter.mp hde with ⟨hsorted, hdir⟩
    rcases List.mem_filter.mp (mem_insertionSortB.mp hsorted) with ⟨hroot, hdrv⟩
    rcases List.mem_filter.mp (mem_insertionSortB.mp he2) with ⟨hsub, hxlsx⟩
    subst hd hf
    exact ⟨de, hroot, rfl, hdir, hdrv, e2, hsub, rfl, hxlsx⟩
  · rintro ⟨e, he, rfl, hdir, hdrv, e2, he2, rfl, hxlsx⟩
    refine List.mem_flatMap.mpr ⟨e, ?_, ?_⟩
    · exact List.mem_filter.mpr
        ⟨mem_insertionSortB.mpr (List.mem_filter.mpr ⟨he, hdrv⟩), hdir⟩
    · exact List.mem_map.mpr
        ⟨e2, mem_insertionSortB.mpr (List.mem_filter.mpr ⟨he2, hxlsx⟩), rfl⟩

theorem iter_excel_files_sorted {fs : FS}
    (hnd : (fs.rootEntries.map (fun e => e.name)).Nodup) :
    (iter_excel_files fs).Pairwise
      (fun p q => (strLe p.1 q.1 = true ∧ p.1 ≠ q.1)
        ∨ (p.1 = q.1 ∧ strLe p.2 q.2 = true)) := by
  classical
  set nameLe : Entry → Entry → Bool := fun a b => strLe a.name b.name with hnameLe
  have htr : ∀ a b c, nameLe a b = true → nameLe b c = true → nameLe a c = true :=
    fun a b c h1 h2 => strLe_trans h1 h2
  have hto : ∀ a b, nameLe a b = true ∨ nameLe b a = true :=
    fun a b => strLe_total a.name b.name
  set dirs : List Entry :=
    (insertionSortB nameLe (fs.rootEntries.filter globDriver)).filter
      (fun e => e.isDir) with hdirs
  have hdirs_sorted : dirs.Pairwise (fun a b => nameLe a b = true) :=
    (pairwise_insertionSortB htr hto (fs.rootEntries.filter globDriver)).filter _
  have hdirs_nodup : (dirs.map (fun e => e.name)).Nodup := by
    have h1 : ((fs.rootEntries.filter globDriver).map (fun e => e.name)).Nodup :=
      hnd.sublist (List.Sublist.map _ (List.filter_sublist _))
    have h2 : ((insertionSortB nameLe (fs.rootEntries.filter globDriver)).map
        (fun e => e.name)).Nodup :=
      (((insertionSortB_perm nameLe _).map _).symm).nodup h1
    exact h2.sublist (List.Sublist.map _ (List.filter_sublist _))
  have hdirs_ne : dirs.Pairwise (fun a b => a.name ≠ b.name) :=
    List.pairwise_map.mp hdirs_nodup
  have hkey : dirs.Pairwise
      (fun a b => strLe a.name b.name = true ∧ a.name ≠ b.name) :=
    hdirs_sorted.and hdirs_ne
  have hiter : iter_excel_files fs =
      (dirs.map (fun de =>
        (insertionSortB nameLe ((fs.subEntries de.name).filter globXlsx)).map
          (fun e => (de.name, e.name)))).flatten := rfl
  rw [hiter]
  rw [List.pairwise_flatten]
  constructor
  · intro block hblock
    rcases List.mem_map.mp hblock with ⟨de, -, rfl⟩
    rw [List.pairwise_map]
    exact (pairwise_insertionSortB htr hto _).imp
      (fun h => Or.inr ⟨rfl, h⟩)
  · rw [List.pairwise_map]
    refine hkey.imp ?_
    rintro a b ⟨hle, hne⟩ x hx y hy
    rcases List.mem_map.mp hx with ⟨ex, -, rfl⟩
    rcases List.mem_map.mp hy with ⟨ey, -, rfl⟩
    exact Or.inl ⟨hle, hne⟩

/-! ## Claim theorems -/

/-- C1: for every file path, the maneuver label is obtained by splitting
the filename without its extension on underscores and taking the segment
at index 1 when at least two segments exist, and the empty string
otherwise; the function is total by its type, and on the two spec examples
it returns `U-Turnings` and the empty string. -/
theorem C1_parse_maneuver_spec :
    (∀ fn : String,
      (2 ≤ ((pySplit '_' (pyStem fn).toList).map String.mk).length →
        ∃ h : 1 < ((pySplit '_' (pyStem fn).toList).map String.mk).length,
          parse_maneuver_from_filename fn
            = ((pySplit '_' (pyStem fn).toList).map String.mk).get ⟨1, h⟩)
      ∧ (((pySplit '_' (pyStem fn).toList).map String.mk).length < 2 →
          parse_maneuver_from_filename fn = ""))
    ∧ parse_maneuver_from_filename "STISIMData_U-Turnings.xlsx" = "U-Turnings"
    ∧ parse_maneuver_from_filename "NoUnderscoreName.xlsx" = "" := by
  refine ⟨fun fn => ⟨fun h2 => ⟨by omega, ?_⟩, fun hlt => ?_⟩, rfl, rfl⟩
  · unfold parse_maneuver_from_filename
    rw [if_pos h2]
    exact List.getD_eq_get _ _ (by omega)
  · unfold parse_maneuver_from_filename
    rw [if_neg (by omega)]

/-- Witness for C1 at the spec example: the second underscore segment of
the stem is picked. -/
theorem C1_parse_maneuver_spec_witness :
    parse_maneuver_from_filename "STISIMData_U-Turnings.xlsx"
      = ((pySplit '_' (pyStem "STISIMData_U-Turnings.xlsx").toList).map
          String.mk).get ⟨1, by decide⟩ := by
  rcases (C1_parse_maneuver_spec.1 "STISIMData_U-Turnings.xlsx").1 (by decide)
    with ⟨h, he⟩
  exact he

/-- C2: concatenation yields a table whose row count is the sum of the
input row counts, whose column set is the union of the input column sets,
whose rows are exactly the input rows in input order (file order, then
in-file row order) reindexed against the combined columns, and in which a
reindexed row holds a missing value at every column its source frame
lacks and its own value at every column its source frame has. -/
theorem C2_concat_spec (frames : List Frame) :
    (pd_concat frames).rows.length = (frames.map (fun f => f.rows.length)).sum
    ∧ (∀ c, c ∈ (pd_concat frames).cols ↔ ∃ f ∈ frames, c ∈ f.cols)
    ∧ (pd_concat frames).rows
        = (frames.map (fun f =>
            f.rows.map (reindexRow f (pd_concat frames).cols))).flatten
    ∧ (∀ f ∈ frames, ∀ r c,
        (c ∉ f.cols →
          (pd_concat frames).cellAt
            (reindexRow f (pd_concat frames).cols r) c = none)
        ∧ (c ∈ f.cols →
          (pd_concat frames).cellAt
            (reindexRow f (pd_concat frames).cols r) c = f.cellAt r c)) := by
  refine ⟨pd_concat_length frames, fun c => ?_, rfl, fun f hf r c => ⟨?_, ?_⟩⟩
  · rw [pd_concat_cols]; exact mem_unionCols
  · intro hc
    rw [cellAt_reindexRow]
    by_cases hu : c ∈ (pd_concat frames).cols
    · rw [if_pos hu]; exact cellAt_eq_none hc
    · rw [if_neg hu]
  · intro hc
    rw [cellAt_reindexRow, if_pos]
    rw [pd_concat_cols]
    exact mem_unionCols.mpr ⟨f, hf, hc⟩

/-- Witness for C2 on two concrete one-row tables with differing columns:
the output has two rows and the row coming from the second table holds a
missing value in the column only the first table has. -/
theorem C2_concat_spec_witness :
    (pd_concat [⟨["A", "B"], [[some "1", some "2"]]⟩,
      ⟨["B", "C"], [[some "3", some "4"]]⟩]).rows.length = 2
    ∧ (pd_concat [⟨["A", "B"], [[some "1", some "2"]]⟩,
        ⟨["B", "C"], [[some "3", some "4"]]⟩]).cellAt
        (reindexRow ⟨["B", "C"], [[some "3", some "4"]]⟩
          (pd_concat [⟨["A", "B"], [[some "1", some "2"]]⟩,
            ⟨["B", "C"], [[some "3", some "4"]]⟩]).cols
          [some "3", some "4"]) "A" = none := by
  have h := C2_concat_spec [⟨["A", "B"], [[some "1", some "2"]]⟩,
    ⟨["B", "C"], [[some "3", some "4"]]⟩]
  exact ⟨h.1, (h.2.2.2 ⟨["B", "C"], [[some "3", some "4"]]⟩ (by decide)
    [some "3", some "4"] "A").1 (by decide)⟩

/-- C3: every table collected by the main loop is free of denylisted
columns, so no denylisted name appears among the aggregated output
headers even when it occurs in only one source file; and the removal step
never fails, since inserting the two fresh label columns and dropping the
denylist succeeds for any source table whether or not it holds denylisted
columns. -/
theorem C3_denylist_removed {w : World} {files : List (String × String)}
    {frames : List Frame} (h : collectFrames w files = .ok frames) :
    (∀ f ∈ frames, ∀ c ∈ f.cols, c ∉ columns_to_remove)
    ∧ (∀ c ∈ (pd_concat frames).cols, c ∉ columns_to_remove)
    ∧ (∀ (df : Frame) (d m : String), "driver" ∉ df.cols → "maneuver" ∉ df.cols →
        processFile d m (.table (some df)) = .ok (some (Frame.dropCols
          ⟨"driver" :: "maneuver" :: df.cols,
           df.rows.map (fun r => some d :: some m :: r)⟩ columns_to_remove))) := by
  have h1 : ∀ f ∈ frames, ∀ c ∈ f.cols, c ∉ columns_to_remove := by
    intro f hf
    rcases collectFrames_ok_mem h f hf with ⟨p, -, rr, -, hpf⟩
    exact processFile_no_denylist hpf
  refine ⟨h1, fun c hc => ?_, fun df d m h1' h2' => processFile_of_fresh rfl h1' h2'⟩
  rw [pd_concat_cols] at hc
  rcases mem_unionCols.mp hc with ⟨f, hf, hcf⟩
  exact h1 f hf c hcf

/-- Witness for C3: in the sample world one source sheet holds the
denylisted column Accidents, yet it is absent from the aggregated output
headers. -/
theorem C3_denylist_removed_witness :
    "Accidents" ∉ (pd_concat sampleFrames).cols := by
  intro hc
  exact (C3_denylist_removed
    (show collectFrames sampleWorld (iter_excel_files sampleWorld.fs)
      = .ok sampleFrames from rfl)).2.1 "Accidents" hc (by decide)

/-- C4 counterexample: a world whose single discovered workbook reads as a
table with zero rows.  One file is discovered and zero usable rows are
aggregated, yet the run succeeds with exit code 0 and writes the CSV, so
zero aggregated rows alone is not a fatal condition. -/
theorem C4_counterexample :
    (iter_excel_files emptySheetWorld.fs).length = 1
    ∧ (run emptySheetWorld defaultArgs).exit = 0
    ∧ (run emptySheetWorld defaultArgs).effects =
        [.ensureParentDir "maniobras_combined.csv",
         .writeCsv "maniobras_combined.csv" ⟨["driver", "maneuver", "Speed"], []⟩
           "utf-8-sig" false true,
         .reportSuccess 0 "maniobras_combined.csv"] := by
  refine ⟨rfl, rfl, ?_⟩
  decide

/-- C4 (amended): when the input checks pass, the run fails fatally with a
reported error, a nonzero exit and no effects whenever zero files were
discovered, and whenever the collected frame list is empty, which happens
exactly when every discovered file produced no usable table; a discovered
file whose table has zero rows still counts as usable. -/
theorem C4_no_data_fatal (w : World) (args : Args) :
    (iter_excel_files w.fs = [] →
      (run w args).exit = 1 ∧ (run w args).effects = []
        ∧ ((run w args).fatalMsg).isSome = true)
    ∧ (collectFrames w (iter_excel_files w.fs) = .ok [] →
      (run w args).exit = 1 ∧ (run w args).effects = []
        ∧ ((run w args).fatalMsg).isSome = true)
    ∧ (collectFrames w (iter_excel_files w.fs) = .ok [] ↔
        ∀ p ∈ iter_excel_files w.fs,
          ∃ rr, w.readExcel p.1 p.2 = .ok rr ∧ extractDf rr = none) := by
  have main : collectFrames w (iter_excel_files w.fs) = .ok [] →
      (run w args).exit = 1 ∧ (run w args).effects = []
        ∧ ((run w args).fatalMsg).isSome = true := by
    intro h0
    rcases run_dichotomy w args with ⟨frames, -, -, -, hcf, hne, -⟩ | hfail
    · rw [h0] at hcf
      injection hcf with hcf
      exact absurd hcf.symm hne
    · exact hfail
  exact ⟨fun h0 => main (by rw [h0]; rfl), main, collectFrames_ok_nil_iff⟩

/-- Witness for the amended C4: a world with a driver directory holding no
workbooks exits fatally with no effects. -/
theorem C4_no_data_fatal_witness :
    (run noFilesWorld defaultArgs).exit = 1
    ∧ (run noFilesWorld defaultArgs).effects = []
    ∧ ((run noFilesWorld defaultArgs).fatalMsg).isSome = true :=
  (C4_no_data_fatal noFilesWorld defaultArgs).1 rfl

/-- C5 counterexample: a directory named `sub.xlsx` inside a driver
directory is yielded by discovery even though it is not a file, so
discovery does not yield only files. -/
theorem C5_counterexample :
    iter_excel_files dirAsXlsxFS = [("Driver1", "sub.xlsx")]
    ∧ dirAsXlsxFS.subEntries "Driver1" = [⟨"sub.xlsx", true⟩] := by
  refine ⟨?_, rfl⟩
  decide

/-- C5 (amended): discovery yields exactly the directory entries, whether
files or directories, whose names match `*.xlsx` and that lie inside
direct subdirectories that match `Driver*` and are directories; root
entries that are not directories or do not match contribute nothing and
raise nothing; and for a root whose child names are distinct, as in a real
filesystem, the enumeration is sorted lexicographically by directory name
and then by file name. -/
theorem C5_discovery_spec (fs : FS) :
    (∀ d fn, (d, fn) ∈ iter_excel_files fs ↔
      ∃ e ∈ fs.rootEntries, e.name = d ∧ e.isDir = true ∧ globDriver e = true ∧
        ∃ e2 ∈ fs.subEntries d, e2.name = fn ∧ globXlsx e2 = true)
    ∧ ((fs.rootEntries.map (fun e => e.name)).Nodup →
      (iter_excel_files fs).Pairwise
        (fun p q => (strLe p.1 q.1 = true ∧ p.1 ≠ q.1)
          ∨ (p.1 = q.1 ∧ strLe p.2 q.2 = true))) :=
  ⟨fun _ _ => mem_iter_excel_files, fun hnd => iter_excel_files_sorted hnd⟩

/-- Witness for the amended C5 on the sample filesystem: a concrete path
is discovered, and the enumeration is pairwise sorted. -/
theorem C5_discovery_spec_witness :
    ("DriverA", "STISIMData_Roundabout.xlsx") ∈ iter_excel_files sampleFS
    ∧ (iter_excel_files sampleFS).Pairwise
        (fun p q => (strLe p.1 q.1 = true ∧ p.1 ≠ q.1)
          ∨ (p.1 = q.1 ∧ strLe p.2 q.2 = true)) :=
  ⟨((C5_discovery_spec sampleFS).1 _ _).mpr (by decide),
   (C5_discovery_spec sampleFS).2 (by decide)⟩

/-- C6: when the reader returns a dict of sheets, the first sheet is used
and the rest are discarded; when it returns an empty dict, the file is
skipped: processing yields no table, raises no error, and the loop
continues with the remaining files as if the file were absent. -/
theorem C6_multi_sheet_handling (w : World) (d fn : String)
    (rest : List (String × String)) (f : Frame) (fl : List Frame) :
    extractDf (.sheets (f :: fl)) = some f
    ∧ extractDf (.sheets []) = none
    ∧ (∀ m, processFile d m (.sheets []) = .ok none)
    ∧ (w.readExcel d fn = .ok (.sheets []) →
        collectFrames w ((d, fn) :: rest) = collectFrames w rest) :=
  ⟨rfl, rfl, fun _ => rfl, fun h => collectFrames_skip h⟩

/-- Witness for C6: in a concrete world whose first workbook reads as an
empty dict, the loop result equals the result on the remaining file
alone. -/
theorem C6_multi_sheet_handling_witness :
    collectFrames emptyDictWorld [("Driver1", "a.xlsx"), ("Driver1", "b.xlsx")]
      = collectFrames emptyDictWorld [("Driver1", "b.xlsx")] :=
  (C6_multi_sheet_handling emptyDictWorld "Driver1" "a.xlsx"
    [("Driver1", "b.xlsx")] ⟨[], []⟩ []).2.2.2 rfl

/-- C7: every fatal condition — missing or non-directory input, missing
pandas, an aborted main loop, or an empty collection — exits with status 1,
records a fatal message, and produces no effects at all, in particular no
output file; moreover a read error on any discovered file aborts the whole
loop, since per-file read errors are not individually caught. -/
theorem C7_fatal_failures (w : World) (args : Args) :
    ((w.inputExists = false ∨ w.inputIsDir = false ∨ w.pandasAvailable = false
      ∨ (∃ e, collectFrames w (iter_excel_files w.fs) = .error e)
      ∨ collectFrames w (iter_excel_files w.fs) = .ok []) →
      (run w args).exit = 1 ∧ (run w args).effects = []
        ∧ ((run w args).fatalMsg).isSome = true)
    ∧ ((∃ p ∈ iter_excel_files w.fs, ∃ e, w.readExcel p.1 p.2 = .error e) →
      ∃ e, collectFrames w (iter_excel_files w.fs) = .error e) := by
  constructor
  · intro hbad
    rcases run_dichotomy w args with ⟨frames, hex, hdir, hpa, hcf, hne, -⟩ | hfail
    · exfalso
      rcases hbad with h | h | h | ⟨e, h⟩ | h
      · rw [hex] at h; cases h
      · rw [hdir] at h; cases h
      · rw [hpa] at h; cases h
      · rw [hcf] at h; cases h
      · rw [hcf] at h; injection h with h; exact hne h
    · exact hfail
  · rintro ⟨p, hp, e, he⟩
    exact collectFrames_error_of_bad_file hp
      (fun rr hrr => by rw [he] at hrr; cases hrr)

/-- Witness for C7: a world with a missing input root exits fatally with
no effects. -/
theorem C7_fatal_failures_witness :
    (run missingInputWorld defaultArgs).exit = 1
    ∧ (run missingInputWorld defaultArgs).effects = []
    ∧ ((run missingInputWorld defaultArgs).fatalMsg).isSome = true :=
  (C7_fatal_failures missingInputWorld defaultArgs).1 (Or.inl rfl)

/-- C8: on success the effect trace is exactly: ensure the output parent
directory exists, then write the aggregated table as CSV in the utf-8-sig
encoding, which emits a byte-order mark, with the pandas header default
kept (header row on) and the index column off, then report the number of
rows written and the resolved output path. -/
theorem C8_emission (w : World) (args : Args) (h : (run w args).exit = 0) :
    ∃ frames, collectFrames w (iter_excel_files w.fs) = .ok frames
      ∧ frames ≠ []
      ∧ (run w args).effects =
          [.ensureParentDir args.output,
           .writeCsv args.output (pd_concat frames) "utf-8-sig" false true,
           .reportSuccess (pd_concat frames).rows.length
             (w.resolvePath args.output)]
      ∧ encodingWritesBOM "utf-8-sig" = true := by
  rcases run_dichotomy w args with ⟨frames, -, -, -, hcf, hne, heq⟩ | ⟨h1, -, -⟩
  · exact ⟨frames, hcf, hne, by rw [heq], rfl⟩
  · exact absurd (h.symm.trans h1) (by decide)

/-- Witness for C8: in the sample world the successful run emits exactly
the three effects, in order, with the aggregated sample table. -/
theorem C8_emission_witness :
    (run sampleWorld defaultArgs).effects =
      [.ensureParentDir "maniobras_combined.csv",
       .writeCsv "maniobras_combined.csv" (pd_concat sampleFrames)
         "utf-8-sig" false true,
       .reportSuccess (pd_concat sampleFrames).rows.length
         "/abs/maniobras_combined.csv"]
    ∧ encodingWritesBOM "utf-8-sig" = true := by
  rcases C8_emission sampleWorld defaultArgs (by decide)
    with ⟨frames, hcf, -, heff, hbom⟩
  have hfr : frames = sampleFrames := by
    have h2 : collectFrames sampleWorld (iter_excel_files sampleWorld.fs)
        = .ok sampleFrames := rfl
    rw [h2] at hcf
    injection hcf with hcf2
    exact hcf2.symm
  subst hfr
  exact ⟨heff, hbom⟩

/-- C9: inserting the injected leading columns raises when the source
sheet already holds a column named driver or maneuver, and a processing
error on any discovered file makes the whole run abort with a fatal exit
and no output; when neither name occurs in the source sheet the insertion
branch never fails. -/
theorem C9_insert_clash (w : World) (args : Args) (d m : String)
    (df : Frame) (rr : ReadResult) :
    ((extractDf rr = some df ∧ ("driver" ∈ df.cols ∨ "maneuver" ∈ df.cols)) →
      ∃ e, processFile d m rr = .error e)
    ∧ ((extractDf rr = some df ∧ "driver" ∉ df.cols ∧ "maneuver" ∉ df.cols) →
      ∃ f, processFile d m rr = .ok (some f))
    ∧ ((∃ e, collectFrames w (iter_excel_files w.fs) = .error e) →
      (run w args).exit = 1 ∧ (run w args).effects = [])
    ∧ (∀ p ∈ iter_excel_files w.fs, ∀ rr2,
        w.readExcel p.1 p.2 = .ok rr2 →
        (∃ e, processFile p.1 (parse_maneuver_from_filename p.2) rr2 = .error e) →
        ∃ e, collectFrames w (iter_excel_files w.fs) = .error e) := by
  refine ⟨fun ⟨hrr, hclash⟩ => processFile_error_of_clash hrr hclash,
    fun ⟨hrr, h1, h2⟩ => ⟨_, processFile_of_fresh hrr h1 h2⟩, ?_, ?_⟩
  · rintro ⟨e, he⟩
    rcases run_dichotomy w args with ⟨frames, -, -, -, hcf, -, -⟩ | ⟨h1, h2, -⟩
    · rw [hcf] at he; cases he
    · exact ⟨h1, h2⟩
  · rintro p hp rr2 hre ⟨e, he⟩
    refine collectFrames_error_of_bad_file hp (fun rr3 hrr3 => ?_)
    rw [hre] at hrr3
    injection hrr3 with hrr3
    exact ⟨e, hrr3 ▸ he⟩

/-- Witness for C9: a world whose single workbook already holds a driver
column makes the whole run abort with no output. -/
theorem C9_insert_clash_witness :
    (run clashWorld defaultArgs).exit = 1
    ∧ (run clashWorld defaultArgs).effects = [] :=
  (C9_insert_clash clashWorld defaultArgs "Driver1" ""
    ⟨["driver", "Speed"], [[some "x", some "50"]]⟩
    (.table (some ⟨["driver", "Speed"], [[some "x", some "50"]]⟩))).2.2.1
    ⟨"cannot insert driver, already exists", rfl⟩

/-- The cell a row holds in a column that heads the column list is the
head of the row. -/
theorem cellAt_head {f : Frame} {t : List String} {r rest : List Cell}
    {c : String} {v : Cell} (hc : f.cols = c :: t) (hr : r = v :: rest) :
    f.cellAt r c = v := by
  unfold Frame.cellAt
  rw [hc, hr, List.zip_cons_cons, List.find?_cons_of_pos _ (by simp)]

/-- C10: every discovered path has the `.xlsx` extension and lies in a
parent directory whose name starts with Driver; consequently, in every
aggregated output row the injected driver field holds a string starting
with Driver. -/
theorem C10_driver_invariant {w : World} {frames : List Frame}
    (h : collectFrames w (iter_excel_files w.fs) = .ok frames) :
    (∀ p ∈ iter_excel_files w.fs,
      strStartsWith p.1 "Driver" = true ∧ strEndsWith p.2 ".xlsx" = true)
    ∧ (∀ r ∈ (pd_concat frames).rows,
      ∃ dv, (pd_concat frames).cellAt r "driver" = some dv
        ∧ strStartsWith dv "Driver" = true) := by
  have hdisc : ∀ p ∈ iter_excel_files w.fs,
      strStartsWith p.1 "Driver" = true ∧ strEndsWith p.2 ".xlsx" = true := by
    rintro ⟨d, fn⟩ hp
    rcases mem_iter_excel_files.mp hp with
      ⟨e, -, rfl, -, hdrv, e2, -, rfl, hxlsx⟩
    exact ⟨hdrv, hxlsx⟩
  refine ⟨hdisc, ?_⟩
  intro r hr
  rcases mem_pd_concat_rows.mp hr with ⟨f, hf, r0, hr0, rfl⟩
  rcases collectFrames_ok_mem h f hf with ⟨p, hp, rr, -, hpf⟩
  rcases processFile_driver_column hpf with ⟨⟨t, hcols⟩, hrows⟩
  rcases hrows r0 hr0 with ⟨rest, hrest⟩
  have hmem : "driver" ∈ (pd_concat frames).cols := by
    rw [pd_concat_cols]
    exact mem_unionCols.mpr ⟨f, hf, by rw [hcols]; exact List.mem_cons_self _ _⟩
  refine ⟨p.1, ?_, (hdisc p hp).1⟩
  have hred : (pd_concat frames).cellAt
      (reindexRow f (pd_concat frames).cols r0) "driver"
      = f.cellAt r0 "driver" := by
    rw [cellAt_reindexRow ((pd_concat frames).cols) ((pd_concat frames).rows)]
    rw [if_pos hmem]
  rw [show reindexRow f (unionCols frames) r0
      = reindexRow f (pd_concat frames).cols r0 from rfl]
  rw [hred, cellAt_head hcols hrest]

/-- Witness for C10: the first aggregated output row of the sample world
holds the driver value DriverA, which starts with Driver. -/
theorem C10_driver_invariant_witness :
    (pd_concat sampleFrames).cellAt
        ((pd_concat sampleFrames).rows.getD 0 []) "driver" = some "DriverA"
    ∧ strStartsWith "DriverA" "Driver" = true := by
  have h := @C10_driver_invariant sampleWorld sampleFrames rfl
  rcases h.2 ((pd_concat sampleFrames).rows.getD 0 []) (by decide)
    with ⟨dv, hdv, hsw⟩
  have hv : (pd_concat sampleFrames).cellAt
      ((pd_concat sampleFrames).rows.getD 0 []) "driver" = some "DriverA" := by
    decide
  rw [hv] at hdv
  injection hdv with hdv
  subst hdv
  exact ⟨hv, hsw⟩

end MergeManiobras
